import Mathlib

/-!
Verification of the scuttlespace auth module (`src/modules/auth/index.ts`):
the identity-command dispatcher `handle`, the name validator
`isValidIdentity`, the status resolver `checkIdentityStatus`, and the
lifecycle/role engine described by the specification.

The store is modelled as lists of rows of the three tables `identity`,
`user_identity` (membership) and `user`; the SQL join of the resolver is
modelled row by row, and `better-sqlite3`'s `.get()` as `List.head?`
(the first row of the result set, the query having no ORDER BY).
-/

/-- Row of the `identity` table: `name`, `enabled`, optional `domain`. -/
structure Identity where
  name : String
  enabled : Bool
  domain : Option String
deriving DecidableEq

/-- Row of the `user_identity` table (a membership):
`identity_name`, `user_pubkey`, `membership_type`. -/
structure MembershipRow where
  identityName : String
  userSender : String
  membershipType : String
deriving DecidableEq

/-- Row of the `user` table: `sender` and nullable `primary_identity_name`. -/
structure User where
  sender : String
  primaryIdentityName : Option String
deriving DecidableEq

/-- The relational store visible to the auth module. -/
structure Store where
  identities : List Identity
  memberships : List MembershipRow
  users : List User
deriving DecidableEq

/-- The empty store (fresh database). -/
def emptyStore : Store := { identities := [], memberships := [], users := [] }

/-- One row of the resolver's three-way join. -/
structure JoinedRow where
  enabled : Bool
  identityName : String
  membershipType : String
  primaryIdentityName : Option String
  sender : String
deriving DecidableEq

/-- A logical store access performed by the auth module.  The resolver's
single `.prepare(...).get(...)` is one `readJoin`. -/
inductive StoreOp where
  | readJoin (identityName : Option String)
deriving DecidableEq

/-- Result of a store-touching computation: its value, the store it leaves
behind, and the trace of logical store operations it performed. -/
structure DbOutcome (α : Type) where
  value : α
  store : Store
  ops : List StoreOp
deriving DecidableEq

/-! ### JavaScript value helpers

`args.id` in the dispatcher may be `undefined` (the grammar captured no
`id` value), so JS string-or-undefined values are modelled as
`Option String`.  `RegExp.prototype.test` coerces its argument with
`ToString`, which renders `undefined` as the string `"undefined"`. -/

/-- JS `ToString` coercion of a string-or-undefined value. -/
def jsToString : Option String → String
  | none => "undefined"
  | some s => s

/-- JS `String.prototype.toLowerCase` (basic-latin case mapping). -/
def jsToLower (s : String) : String := ⟨s.data.map Char.toLower⟩

/-- JS `String.prototype.startsWith`. -/
def jsStartsWith (s p : String) : Bool := p.data.isPrefixOf s.data

/-! ### Identity name validator (`isValidIdentity`, lines 81–84) -/

/-- Character class `[a-z]`. -/
def isLowerLetter (c : Char) : Bool := 'a' ≤ c && c ≤ 'z'

/-- Character class `[a-z0-9_]`. -/
def isNameChar (c : Char) : Bool :=
  isLowerLetter c || ('0' ≤ c && c ≤ '9') || c == '_'

/-- Denotation of the anchored regular expression `^[a-z][a-z0-9_]+$`:
one `[a-z]` character followed by one or more `[a-z0-9_]` characters. -/
def matchesNameRegex : List Char → Bool
  | [] => false
  | c :: rest => isLowerLetter c && !rest.isEmpty && rest.all isNameChar

/-- The `regex.test(username)` call: JS coerces the argument to a string
(`undefined` becomes `"undefined"`) and then matches. -/
def regexTest (v : Option String) : Bool := matchesNameRegex (jsToString v).data

/-- `isValidIdentity` from the source: `/^[a-z][a-z0-9_]+$/.test(username)`.
The argument is the JS value `args.id`, which may be `undefined`. -/
def isValidIdentity (username : Option String) : Bool := regexTest username

/-! ### Identity status resolver (`checkIdentityStatus`, lines 100–139) -/

/-- The `EXISTING` result shape (`IExistingIdentityResult`). -/
structure IExistingIdentityResult where
  status : String
  enabled : Bool
  identityName : String
  membershipType : String
  primaryIdentityName : Option String
  sender : String
deriving DecidableEq

/-- `IdentityStatusCheckResult`: the union of the `EXISTING` shape with the
`AVAILABLE` and `TAKEN` tags.  The `existing` variant carries `status`
values `"ADMIN"` or `"MEMBER"` only, by construction below. -/
inductive IdentityStatusCheckResult where
  | available
  | taken
  | existing (e : IExistingIdentityResult)
deriving DecidableEq

/-- The resolver's SQL query:
`FROM user_identity ui JOIN identity i ON ui.identity_name = i.name
 JOIN user u ON ui.user_pubkey = u.sender WHERE identity_name=$identityName`,
modelled as a nested-loop join in table order.  The bound parameter is the
JS value `identityName`; a present value matches rows by string equality. -/
def joinQuery (st : Store) (identityName : Option String) : List JoinedRow :=
  (st.memberships.filter (fun ui => some ui.identityName == identityName)).flatMap
    (fun ui =>
      (st.identities.filter (fun i => ui.identityName == i.name)).flatMap
        (fun i =>
          (st.users.filter (fun u => ui.userSender == u.sender)).map
            (fun u =>
              { enabled := i.enabled
                identityName := i.name
                membershipType := ui.membershipType
                primaryIdentityName := u.primaryIdentityName
                sender := u.sender })))

/-- `checkIdentityStatus` from the source.  `.get()` yields the first row of
the join (`head?`); no row means `AVAILABLE`; a first row whose `sender`
equals the caller is turned into the `EXISTING` shape, any other first row
means `TAKEN`. -/
def checkIdentityStatus (identityName : Option String) (sender : String)
    (st : Store) : IdentityStatusCheckResult :=
  match (joinQuery st identityName).head? with
  | none => .available
  | some identity =>
    if identity.sender == sender then
      .existing
        { enabled := identity.enabled
          identityName := identity.identityName
          membershipType := identity.membershipType
          primaryIdentityName := identity.primaryIdentityName
          sender := sender
          status := if identity.membershipType == "ADMIN" then "ADMIN" else "MEMBER" }
    else .taken

/-- `checkIdentityStatus` together with its store frame: the body performs
exactly the one `readJoin` access and leaves the store as it was. -/
def checkIdentityStatusDb (identityName : Option String) (sender : String)
    (st : Store) : DbOutcome IdentityStatusCheckResult :=
  { value := checkIdentityStatus identityName sender st
    store := st
    ops := [.readJoin identityName] }

/-! ### Command grammar

Modelled from the spec: the `humanist` grammar (package dependency, not
under `src/`) with the verb table of lines 46–55
(`id`:1, `enable`:0, `disable`:0, `destroy`:0, `domain`:1, `admin`:1,
`member`:1, `remove`:1).  Per the spec the grammar is case-sensitive on
option names and an unparseable string fails the caller rather than
throwing: unknown words are skipped and a missing required value captures
nothing, so the result simply lacks the corresponding key. -/

/-- A captured argument value: a string for arity-1 options, a flag for
arity-0 options. -/
inductive ArgValue where
  | strVal (s : String)
  | flagVal
deriving DecidableEq

/-- The parse result: captured (option, value) pairs in order. -/
def ParsedArgs := List (String × ArgValue)

instance : DecidableEq ParsedArgs := by
  unfold ParsedArgs
  infer_instance

/-- The JS field access `args.id`: the value captured for `"id"`, or
`undefined` when none was captured. -/
def argsId (args : ParsedArgs) : Option String :=
  match args.find? (fun kv => kv.1 == "id") with
  | some (_, .strVal s) => some s
  | _ => none

/-- Options of arity 0 in the verb table. -/
def arity0 (w : String) : Bool := w == "enable" || w == "disable" || w == "destroy"

/-- Options of arity 1 in the verb table. -/
def arity1 (w : String) : Bool :=
  w == "id" || w == "domain" || w == "admin" || w == "member" || w == "remove"

/-- Modelled from the spec: tokenization of the command into
space-separated words. -/
def splitWordsAux : List Char → List Char → List String
  | [], cur => if cur.isEmpty then [] else [⟨cur.reverse⟩]
  | c :: rest, cur =>
    if c == ' ' then
      if cur.isEmpty then splitWordsAux rest []
      else ⟨cur.reverse⟩ :: splitWordsAux rest []
    else splitWordsAux rest (c :: cur)

/-- Words of a command string. -/
def tokenize (s : String) : List String := splitWordsAux s.data []

/-- Modelled from the spec: the word-by-word capture pass of the grammar.
A recognized arity-0 option captures a flag; a recognized arity-1 option
captures the following word (or nothing at the end of input); an
unrecognized word is skipped. -/
def parseWords : List String → ParsedArgs
  | [] => []
  | [w] => if arity0 w then [(w, .flagVal)] else []
  | w :: v :: rest =>
    if arity0 w then (w, .flagVal) :: parseWords (v :: rest)
    else if arity1 w then (w, .strVal v) :: parseWords rest
    else parseWords (v :: rest)

/-- Modelled from the spec: the `humanist` parser instance of lines 46–55
applied to the raw (original-case) command. -/
def parser (command : String) : ParsedArgs := parseWords (tokenize command)

/-! ### Dispatcher (`handle`, lines 57–79)

The three sub-handlers `createIdentity`, `alreadyTaken` and
`modifyIdentity` live in sibling files that are not under `src/`; `handle`
only forwards to them and returns their result, so they are abstract
parameters here, applied to exactly the arguments the source passes
(identity name, sender, command — and the parsed args for modify). -/

/-- The three sub-handlers the dispatcher forwards to. -/
structure Handlers (α : Type) where
  createIdentity : Option String → String → String → α
  alreadyTaken : Option String → String → String → α
  modifyIdentity : IExistingIdentityResult → ParsedArgs → String → α

/-- Result of one `handle` call: the returned value (`none` is the
`undefined` / unhandled result), the store left behind, and the store
operations `handle`'s own body performed. -/
structure HandleOutcome (α : Type) where
  response : Option α
  store : Store
  ops : List StoreOp
deriving DecidableEq

/-- `handle` from the source: lower-case the command (`lcaseCommand`) and
check its `"id "` head; parse the original-case command (`args`), read
`args.id` (`identityName`) and validate it; resolve the status and
dispatch on it with the source's nested conditional
(`AVAILABLE` / `TAKEN` / otherwise modify), returning the chosen
sub-handler's result; otherwise return `undefined` (`none`). -/
def handle {α : Type} (H : Handlers α) (command : String) (sender : String)
    (st : Store) : HandleOutcome α :=
  if jsStartsWith (jsToLower command) "id " then
    if isValidIdentity (argsId (parser command)) then
      { response := some
          (match (checkIdentityStatusDb (argsId (parser command)) sender st).value with
            | .available => H.createIdentity (argsId (parser command)) sender command
            | .taken => H.alreadyTaken (argsId (parser command)) sender command
            | .existing e => H.modifyIdentity e (parser command) command)
        store := (checkIdentityStatusDb (argsId (parser command)) sender st).store
        ops := (checkIdentityStatusDb (argsId (parser command)) sender st).ops }
    else { response := none, store := st, ops := [] }
  else { response := none, store := st, ops := [] }

/-! ### Lifecycle & role engine

Modelled from the spec: the mutation handlers `create-identity.ts`,
`modify-identity.ts` and `already-taken.ts` are not under `src/`, so the
Lifecycle & Role Engine of spec section 4.4 is modelled from the spec's
words: dispatch on the caller's resolved standing, create on AVAILABLE,
reject on TAKEN and for plain members, and for admins apply the modifier
with the at-least-one-admin and destroy-only-while-disabled guards. -/

/-- A typed intent, one per command form of the surface. -/
inductive Intent where
  | create
  | grantMember (target : String)
  | grantAdmin (target : String)
  | removeUser (target : String)
  | setDomain (d : String)
  | enable
  | disable
  | destroy
deriving DecidableEq

/-- Rejection kinds of spec section 7. -/
inductive RejectReason where
  | notAuthorized
  | alreadyTaken
  | invariantViolation
  | notFound
deriving DecidableEq

/-- Outcome of one engine application. -/
inductive MutationResult where
  | ok (message : String)
  | rejected (reason : RejectReason)
deriving DecidableEq

/-- Whether a mutation result is a rejection. -/
def MutationResult.isRejected : MutationResult → Bool
  | .ok _ => false
  | .rejected _ => true

/-- Whether an identity row with this name exists. -/
def identityExists (st : Store) (name : String) : Bool :=
  st.identities.any (fun i => i.name == name)

/-- The membership type the first matching membership row gives `x` on
`name`, if any. -/
def membershipOf (st : Store) (name x : String) : Option String :=
  (st.memberships.find? (fun m => m.identityName == name && m.userSender == x)).map
    (fun m => m.membershipType)

/-- Whether some ADMIN row on `name` belongs to a user other than `x`
(the "another ADMIN would remain" check of the admin invariant guard). -/
def otherAdminExists (st : Store) (name x : String) : Bool :=
  st.memberships.any
    (fun m => m.identityName == name && m.membershipType == "ADMIN" && !(m.userSender == x))

/-- Whether the identity row named `name` is enabled. -/
def identityEnabled (st : Store) (name : String) : Bool :=
  st.identities.any (fun i => i.name == name && i.enabled)

/-- Remove every membership row keyed by (`name`, `x`). -/
def removeKey (ms : List MembershipRow) (name x : String) : List MembershipRow :=
  ms.filter (fun m => !(m.identityName == name && m.userSender == x))

/-- Ensure a user row for `x` exists (spec: "creating User row for X if
absent"). -/
def ensureUser (us : List User) (x : String) : List User :=
  if us.any (fun u => u.sender == x) then us else ⟨x, none⟩ :: us

/-- Set `x`'s membership on `name` to `mt`, replacing any previous row. -/
def upsertMembership (st : Store) (name x mt : String) : Store :=
  { st with
      memberships := ⟨name, x, mt⟩ :: removeKey st.memberships name x
      users := ensureUser st.users x }

/-- Delete `x`'s membership row(s) on `name`. -/
def deleteMembership (st : Store) (name x : String) : Store :=
  { st with memberships := removeKey st.memberships name x }

/-- Set the `enabled` flag of the identity row named `name`. -/
def setIdentityEnabled (st : Store) (name : String) (b : Bool) : Store :=
  { st with
      identities := st.identities.map
        (fun i => if i.name == name then { i with enabled := b } else i) }

/-- Set the `domain` of the identity row named `name`. -/
def setIdentityDomain (st : Store) (name d : String) : Store :=
  { st with
      identities := st.identities.map
        (fun i => if i.name == name then { i with domain := some d } else i) }

/-- Delete the identity row named `name` and all its membership rows. -/
def destroyIdentity (st : Store) (name : String) : Store :=
  { st with
      identities := st.identities.filter (fun i => !(i.name == name))
      memberships := st.memberships.filter (fun m => !(m.identityName == name)) }

/-- Set `sender`'s `primaryIdentityName` to `name` when it is unset. -/
def setPrimaryIfUnset (us : List User) (sender name : String) : List User :=
  us.map (fun u =>
    if u.sender == sender && u.primaryIdentityName.isNone
    then { u with primaryIdentityName := some name } else u)

/-- Set `sender`'s `primaryIdentityName` to `name` unconditionally (the
"sets it as active" re-claim of an identity the caller already holds). -/
def setPrimaryTo (us : List User) (sender name : String) : List User :=
  us.map (fun u =>
    if u.sender == sender then { u with primaryIdentityName := some name } else u)

/-- Modelled from the spec: creation on AVAILABLE — identity row with
`enabled = true`, an ADMIN membership for the caller, a user row for the
caller if absent, and the caller's primary identity when unset. -/
def createIdentityStore (st : Store) (name sender : String) : Store :=
  { identities := ⟨name, true, none⟩ :: st.identities
    memberships := ⟨name, sender, "ADMIN"⟩ :: st.memberships
    users := setPrimaryIfUnset (ensureUser st.users sender) sender name }

/-- Modelled from the spec: the Lifecycle & Role Engine (spec section 4.4).
The caller's standing is resolved per spec 4.3 (AVAILABLE when no identity
row exists; the caller's own membership row when it has one; TAKEN
otherwise), and the table of section 4.4 is applied: AVAILABLE creates
regardless of modifiers; TAKEN and plain members are rejected; admins may
grant, remove (unless no other ADMIN would remain), set the domain, toggle
`enabled`, and destroy a disabled identity. -/
def applyIntent (st : Store) (name sender : String) (intent : Intent) :
    MutationResult × Store :=
  if identityExists st name then
    match membershipOf st name sender with
    | none => (.rejected .alreadyTaken, st)
    | some mt =>
      if mt == "ADMIN" then
        match intent with
        | .create => (.ok "active", { st with users := setPrimaryTo st.users sender name })
        | .grantMember x =>
          if membershipOf st name x == some "ADMIN" && !otherAdminExists st name x then
            (.rejected .invariantViolation, st)
          else (.ok "member granted", upsertMembership st name x "MEMBER")
        | .grantAdmin x => (.ok "admin granted", upsertMembership st name x "ADMIN")
        | .removeUser x =>
          match membershipOf st name x with
          | none => (.rejected .notFound, st)
          | some mtx =>
            if mtx == "ADMIN" && !otherAdminExists st name x then
              (.rejected .invariantViolation, st)
            else (.ok "removed", deleteMembership st name x)
        | .setDomain d => (.ok "domain set", setIdentityDomain st name d)
        | .enable => (.ok "enabled", setIdentityEnabled st name true)
        | .disable => (.ok "disabled", setIdentityEnabled st name false)
        | .destroy =>
          if identityEnabled st name then (.rejected .invariantViolation, st)
          else (.ok "destroyed", destroyIdentity st name)
      else
        match intent with
        | .create => (.ok "already yours", st)
        | _ => (.rejected .notAuthorized, st)
  else
    (.ok "created", createIdentityStore st name sender)

/-- Registry states reachable from the fresh database through the engine. -/
inductive Reachable : Store → Prop where
  | init : Reachable emptyStore
  | step (st : Store) (name sender : String) (intent : Intent) :
      Reachable st → Reachable (applyIntent st name sender intent).2

/-- The admin invariant: an identity with any membership row has an ADMIN
membership row. -/
def adminInvariant (st : Store) : Prop :=
  ∀ n, (∃ m ∈ st.memberships, m.identityName = n) →
    ∃ m ∈ st.memberships, m.identityName = n ∧ m.membershipType = "ADMIN"

/-- Well-formedness: every membership row points at an existing identity
row. -/
def storeWF (st : Store) : Prop :=
  ∀ m ∈ st.memberships, ∃ i ∈ st.identities, i.name = m.identityName

/-! ### Helper lemmas about the engine's store operations -/

lemma mem_removeKey {ms : List MembershipRow} {name x : String} {m : MembershipRow} :
    m ∈ removeKey ms name x ↔
      m ∈ ms ∧ ¬(m.identityName = name ∧ m.userSender = x) := by
  simp only [removeKey, List.mem_filter, Bool.not_eq_true', Bool.and_eq_false_iff,
    beq_eq_false_iff_ne, ne_eq, not_and]
  tauto

lemma membershipOf_eq_some {st : Store} {name x mt : String}
    (h : membershipOf st name x = some mt) :
    ∃ m ∈ st.memberships,
      m.identityName = name ∧ m.userSender = x ∧ m.membershipType = mt := by
  unfold membershipOf at h
  cases hf : st.memberships.find? (fun m => m.identityName == name && m.userSender == x) with
  | none => rw [hf] at h; simp at h
  | some m =>
    rw [hf] at h
    simp only [Option.map_some', Option.some.injEq] at h
    have hm := List.mem_of_find?_eq_some hf
    have hp := List.find?_some hf
    simp only [Bool.and_eq_true, beq_iff_eq] at hp
    exact ⟨m, hm, hp.1, hp.2, h⟩

lemma otherAdminExists_iff {st : Store} {name x : String} :
    otherAdminExists st name x = true ↔
      ∃ m ∈ st.memberships,
        m.identityName = name ∧ m.membershipType = "ADMIN" ∧ m.userSender ≠ x := by
  simp [otherAdminExists, List.any_eq_true, and_assoc]

lemma identityExists_iff {st : Store} {name : String} :
    identityExists st name = true ↔ ∃ i ∈ st.identities, i.name = name := by
  simp [identityExists, List.any_eq_true]

lemma adminInvariant_of_memberships_eq {st st' : Store}
    (h : st'.memberships = st.memberships) (hi : adminInvariant st) :
    adminInvariant st' := by
  intro n
  rw [h]
  exact hi n

lemma storeWF_of_eq {st st' : Store} (hi : st'.identities = st.identities)
    (hm : st'.memberships = st.memberships) (h : storeWF st) : storeWF st' := by
  intro m
  rw [hi, hm]
  exact h m

lemma adminInvariant_createIdentityStore {st : Store} (name sender : String)
    (h : adminInvariant st) :
    adminInvariant (createIdentityStore st name sender) := by
  intro n hn
  rcases hn with ⟨m, hm, hid⟩
  simp only [createIdentityStore, List.mem_cons] at hm
  rcases hm with rfl | hm
  · exact ⟨⟨name, sender, "ADMIN"⟩, by simp [createIdentityStore], hid, rfl⟩
  · rcases h n ⟨m, hm, hid⟩ with ⟨m', hm', hid', hty⟩
    exact ⟨m', by simp [createIdentityStore, hm'], hid', hty⟩

lemma storeWF_createIdentityStore {st : Store} (name sender : String)
    (h : storeWF st) : storeWF (createIdentityStore st name sender) := by
  intro m hm
  simp only [createIdentityStore, List.mem_cons] at hm
  rcases hm with rfl | hm
  · exact ⟨⟨name, true, none⟩, by simp [createIdentityStore], rfl⟩
  · rcases h m hm with ⟨i, hi, hname⟩
    exact ⟨i, by simp [createIdentityStore, hi], hname⟩

lemma adminInvariant_upsert_admin {st : Store} {name x : String}
    (h : adminInvariant st) :
    adminInvariant (upsertMembership st name x "ADMIN") := by
  intro n hn
  rcases hn with ⟨m, hm, hid⟩
  simp only [upsertMembership, List.mem_cons] at hm
  rcases hm with rfl | hm
  · exact ⟨⟨name, x, "ADMIN"⟩, by simp [upsertMembership], hid, rfl⟩
  · rcases mem_removeKey.mp hm with ⟨hmem, hkey⟩
    by_cases hnn : n = name
    · exact ⟨⟨name, x, "ADMIN"⟩, by simp [upsertMembership], hnn ▸ rfl, rfl⟩
    · rcases h n ⟨m, hmem, hid⟩ with ⟨m', hm', hid', hty⟩
      refine ⟨m', ?_, hid', hty⟩
      simp only [upsertMembership, List.mem_cons]
      exact Or.inr (mem_removeKey.mpr ⟨hm', fun hc => hnn (hid' ▸ hc.1)⟩)

lemma adminInvariant_upsert_member {st : Store} {name x : String}
    (h : adminInvariant st)
    (hadm : ∃ m ∈ st.memberships,
      m.identityName = name ∧ m.membershipType = "ADMIN" ∧ m.userSender ≠ x) :
    adminInvariant (upsertMembership st name x "MEMBER") := by
  intro n hn
  rcases hn with ⟨m, hm, hid⟩
  simp only [upsertMembership, List.mem_cons] at hm
  have survive : ∀ m' : MembershipRow, m' ∈ st.memberships →
      ¬(m'.identityName = name ∧ m'.userSender = x) →
      m' ∈ (upsertMembership st name x "MEMBER").memberships := by
    intro m' hm' hk
    simp only [upsertMembership, List.mem_cons]
    exact Or.inr (mem_removeKey.mpr ⟨hm', hk⟩)
  by_cases hnn : n = name
  · rcases hadm with ⟨ma, hma, hida, htya, hnsa⟩
    exact ⟨ma, survive ma hma (fun hc => hnsa hc.2), hnn ▸ hida, htya⟩
  · rcases hm with rfl | hm
    · exact absurd hid.symm hnn
    · rcases mem_removeKey.mp hm with ⟨hmem, _⟩
      rcases h n ⟨m, hmem, hid⟩ with ⟨m', hm', hid', hty⟩
      exact ⟨m', survive m' hm' (fun hc => hnn (hid' ▸ hc.1)), hid', hty⟩

lemma storeWF_upsert {st : Store} {name x mt : String}
    (h : storeWF st) (hex : ∃ i ∈ st.identities, i.name = name) :
    storeWF (upsertMembership st name x mt) := by
  intro m hm
  simp only [upsertMembership, List.mem_cons] at hm
  rcases hm with rfl | hm
  · rcases hex with ⟨i, hi, hn⟩
    exact ⟨i, by simpa [upsertMembership] using hi, hn⟩
  · rcases mem_removeKey.mp hm with ⟨hmem, _⟩
    rcases h m hmem with ⟨i, hi, hn⟩
    exact ⟨i, by simpa [upsertMembership] using hi, hn⟩

lemma adminInvariant_delete {st : Store} {name x : String}
    (h : adminInvariant st)
    (hadm : ∀ _hmem : ∃ m ∈ removeKey st.memberships name x, m.identityName = name,
      ∃ m ∈ st.memberships,
        m.identityName = name ∧ m.membershipType = "ADMIN" ∧ m.userSender ≠ x) :
    adminInvariant (deleteMembership st name x) := by
  intro n hn
  rcases hn with ⟨m, hm, hid⟩
  simp only [deleteMembership] at hm
  rcases mem_removeKey.mp hm with ⟨hmem, hkey⟩
  by_cases hnn : n = name
  · rcases hadm ⟨m, by simpa [deleteMembership] using hm, hnn ▸ hid⟩ with
      ⟨ma, hma, hida, htya, hnsa⟩
    refine ⟨ma, ?_, hnn ▸ hida, htya⟩
    simp only [deleteMembership]
    exact mem_removeKey.mpr ⟨hma, fun hc => hnsa hc.2⟩
  · rcases h n ⟨m, hmem, hid⟩ with ⟨m', hm', hid', hty⟩
    refine ⟨m', ?_, hid', hty⟩
    simp only [deleteMembership]
    exact mem_removeKey.mpr ⟨hm', fun hc => hnn (hid' ▸ hc.1)⟩

lemma storeWF_delete {st : Store} {name x : String} (h : storeWF st) :
    storeWF (deleteMembership st name x) := by
  intro m hm
  simp only [deleteMembership] at hm
  rcases mem_removeKey.mp hm with ⟨hmem, _⟩
  rcases h m hmem with ⟨i, hi, hn⟩
  exact ⟨i, by simpa [deleteMembership] using hi, hn⟩

lemma adminInvariant_destroy {st : Store} {name : String}
    (h : adminInvariant st) : adminInvariant (destroyIdentity st name) := by
  intro n hn
  rcases hn with ⟨m, hm, hid⟩
  simp only [destroyIdentity, List.mem_filter, Bool.not_eq_true',
    beq_eq_false_iff_ne, ne_eq] at hm
  rcases hm with ⟨hmem, hne⟩
  rcases h n ⟨m, hmem, hid⟩ with ⟨m', hm', hid', hty⟩
  refine ⟨m', ?_, hid', hty⟩
  simp only [destroyIdentity, List.mem_filter, Bool.not_eq_true',
    beq_eq_false_iff_ne, ne_eq]
  exact ⟨hm', by rw [hid']; rw [hid] at hne; exact hne⟩

lemma storeWF_destroy {st : Store} {name : String} (h : storeWF st) :
    storeWF (destroyIdentity st name) := by
  intro m hm
  simp only [destroyIdentity, List.mem_filter, Bool.not_eq_true',
    beq_eq_false_iff_ne, ne_eq] at hm
  rcases hm with ⟨hmem, hne⟩
  rcases h m hmem with ⟨i, hi, hn⟩
  refine ⟨i, ?_, hn⟩
  simp only [destroyIdentity, List.mem_filter, Bool.not_eq_true',
    beq_eq_false_iff_ne, ne_eq]
  exact ⟨hi, by rw [hn]; exact hne⟩

lemma storeWF_mapIdentities {st : Store} {f : Identity → Identity}
    (hf : ∀ i, (f i).name = i.name) (h : storeWF st) :
    storeWF { st with identities := st.identities.map f } := by
  intro m hm
  rcases h m hm with ⟨i, hi, hn⟩
  exact ⟨f i, List.mem_map.mpr ⟨i, hi, rfl⟩, by rw [hf i]; exact hn⟩

lemma engineInv_step (st : Store) (name sender : String) (intent : Intent)
    (hA : adminInvariant st) (hW : storeWF st) :
    adminInvariant (applyIntent st name sender intent).2 ∧
      storeWF (applyIntent st name sender intent).2 := by
  unfold applyIntent
  split
  · rename_i hex
    split
    · exact ⟨hA, hW⟩
    · rename_i mt hmo
      split
      · rename_i hmt
        have hmt' : mt = "ADMIN" := by simpa using hmt
        split
        · exact ⟨adminInvariant_of_memberships_eq rfl hA, storeWF_of_eq rfl rfl hW⟩
        · rename_i x
          split
          · exact ⟨hA, hW⟩
          · rename_i hg
            refine ⟨adminInvariant_upsert_member hA ?_,
              storeWF_upsert hW (identityExists_iff.mp hex)⟩
            by_cases hoa : otherAdminExists st name x = true
            · exact otherAdminExists_iff.mp hoa
            · have hoa2 : otherAdminExists st name x = false := by
                revert hoa; cases otherAdminExists st name x <;> simp
              have hmx : ¬ membershipOf st name x = some "ADMIN" := by
                intro hc
                exact hg (by simp [hc, hoa2])
              rcases membershipOf_eq_some hmo with ⟨m, hmem, hidm, husm, htym⟩
              refine ⟨m, hmem, hidm, by rw [htym, hmt'], ?_⟩
              rw [husm]
              intro heq
              apply hmx
              rw [← heq, hmo, hmt']
        · rename_i x
          exact ⟨adminInvariant_upsert_admin hA,
            storeWF_upsert hW (identityExists_iff.mp hex)⟩
        · rename_i x
          split
          · exact ⟨hA, hW⟩
          · rename_i mtx hmx
            split
            · exact ⟨hA, hW⟩
            · rename_i hg
              refine ⟨adminInvariant_delete hA ?_, storeWF_delete hW⟩
              intro _
              by_cases hoa : otherAdminExists st name x = true
              · exact otherAdminExists_iff.mp hoa
              · have hoa2 : otherAdminExists st name x = false := by
                  revert hoa; cases otherAdminExists st name x <;> simp
                have hmtx : ¬ mtx = "ADMIN" := by
                  intro hc
                  exact hg (by simp [hc, hoa2])
                rcases membershipOf_eq_some hmo with ⟨m, hmem, hidm, husm, htym⟩
                refine ⟨m, hmem, hidm, by rw [htym, hmt'], ?_⟩
                rw [husm]
                intro heq
                apply hmtx
                rw [← heq, hmo] at hmx
                injection hmx with hmm
                rw [← hmm, hmt']
        · rename_i d
          refine ⟨adminInvariant_of_memberships_eq rfl hA, ?_⟩
          unfold setIdentityDomain
          exact storeWF_mapIdentities (fun i => by split <;> rfl) hW
        · refine ⟨adminInvariant_of_memberships_eq rfl hA, ?_⟩
          unfold setIdentityEnabled
          exact storeWF_mapIdentities (fun i => by split <;> rfl) hW
        · refine ⟨adminInvariant_of_memberships_eq rfl hA, ?_⟩
          unfold setIdentityEnabled
          exact storeWF_mapIdentities (fun i => by split <;> rfl) hW
        · split
          · exact ⟨hA, hW⟩
          · exact ⟨adminInvariant_destroy hA, storeWF_destroy hW⟩
      · split <;> exact ⟨hA, hW⟩
  · exact ⟨adminInvariant_createIdentityStore name sender hA,
      storeWF_createIdentityStore name sender hW⟩

lemma reachable_inv {st : Store} (h : Reachable st) :
    adminInvariant st ∧ storeWF st := by
  induction h with
  | init =>
    constructor
    · intro n hn
      simp [emptyStore] at hn
    · intro m hm
      simp [emptyStore] at hm
  | step st name sender intent _ ih =>
    exact engineInv_step st name sender intent ih.1 ih.2

/-! ### Character class facts for the validator -/

lemma isNameChar_of_lower {c : Char} (h : isLowerLetter c = true) :
    isNameChar c = true := by
  simp [isNameChar, h]

lemma isLowerLetter_false_of_upper {c : Char} (h2 : c ≤ 'Z') :
    isLowerLetter c = false := by
  have hlt : ¬ ('a' ≤ c) := not_le.mpr (lt_of_le_of_lt h2 (by decide))
  simp [isLowerLetter, hlt]

lemma isNameChar_false_of_upper {c : Char} (h1 : 'A' ≤ c) (h2 : c ≤ 'Z') :
    isNameChar c = false := by
  have hd : ¬ ('0' ≤ c) ∨ ¬ (c ≤ '9') := Or.inr (fun hb => absurd (le_trans h1 hb) (by decide))
  have hu : ¬ (c = '_') := fun hc => absurd (hc ▸ h2) (by decide)
  rcases hd with hd | hd <;>
    simp [isNameChar, isLowerLetter_false_of_upper h2, hd, hu]

lemma isLowerLetter_false_of_digit {c : Char} (h2 : c ≤ '9') :
    isLowerLetter c = false := by
  have hlt : ¬ ('a' ≤ c) := not_le.mpr (lt_of_le_of_lt h2 (by decide))
  simp [isLowerLetter, hlt]

/-! ### Claim theorems -/

/-- C4: `isValidIdentity` accepts a (present) string exactly when it starts
with a lowercase letter followed by one or more lowercase letters, digits,
or underscores (so total length is at least 2); tokens containing an
uppercase letter, starting with a digit, of length 1, or containing any
character outside `[a-z0-9_]` are rejected. -/
theorem spec2proof_C4 (s : String) :
    (isValidIdentity (some s) = true ↔
      2 ≤ s.length ∧ ∃ c cs, s.data = c :: cs ∧ isLowerLetter c = true ∧
        cs ≠ [] ∧ ∀ d ∈ cs, isNameChar d = true) ∧
    ((∃ c ∈ s.data, 'A' ≤ c ∧ c ≤ 'Z') → isValidIdentity (some s) = false) ∧
    ((∃ c cs, s.data = c :: cs ∧ '0' ≤ c ∧ c ≤ '9') → isValidIdentity (some s) = false) ∧
    (s.length = 1 → isValidIdentity (some s) = false) ∧
    ((∃ c ∈ s.data, isNameChar c = false) → isValidIdentity (some s) = false) := by
  have hiff : isValidIdentity (some s) = true ↔
      2 ≤ s.length ∧ ∃ c cs, s.data = c :: cs ∧ isLowerLetter c = true ∧
        cs ≠ [] ∧ ∀ d ∈ cs, isNameChar d = true := by
    simp only [isValidIdentity, regexTest, jsToString]
    rw [show s.length = s.data.length from rfl]
    cases hd : s.data with
    | nil => simp [matchesNameRegex]
    | cons c cs =>
      simp only [matchesNameRegex, Bool.and_eq_true, Bool.not_eq_true',
        List.isEmpty_eq_false, List.all_eq_true, List.length_cons,
        List.cons.injEq, ne_eq]
      constructor
      · rintro ⟨⟨hc, hne⟩, hall⟩
        have h1 : 1 ≤ cs.length := List.length_pos.mpr hne
        exact ⟨by omega, c, cs, ⟨rfl, rfl⟩, hc, hne, hall⟩
      · rintro ⟨hl2, c', cs', ⟨rfl, rfl⟩, hc', hne', hall'⟩
        exact ⟨⟨hc', hne'⟩, hall'⟩
  have toFalse : ¬ isValidIdentity (some s) = true → isValidIdentity (some s) = false := by
    cases isValidIdentity (some s) <;> simp
  refine ⟨hiff, ?_, ?_, ?_, ?_⟩
  · rintro ⟨c0, hmem, h1, h2⟩
    refine toFalse (fun htrue => ?_)
    rcases hiff.mp htrue with ⟨-, c, cs, heq, hlow, -, hall⟩
    rw [heq] at hmem
    rcases List.mem_cons.mp hmem with rfl | hmem2
    · rw [isLowerLetter_false_of_upper h2] at hlow
      exact Bool.false_ne_true hlow
    · have hc0 := hall c0 hmem2
      rw [isNameChar_false_of_upper h1 h2] at hc0
      exact Bool.false_ne_true hc0
  · rintro ⟨c0, cs0, heq0, h1, h2⟩
    refine toFalse (fun htrue => ?_)
    rcases hiff.mp htrue with ⟨-, c, cs, heq, hlow, -, -⟩
    rw [heq0] at heq
    injection heq with hch _
    rw [← hch, isLowerLetter_false_of_digit h2] at hlow
    exact Bool.false_ne_true hlow
  · intro h1
    refine toFalse (fun htrue => ?_)
    rcases hiff.mp htrue with ⟨hl2, -⟩
    omega
  · rintro ⟨c0, hmem, hbad⟩
    refine toFalse (fun htrue => ?_)
    rcases hiff.mp htrue with ⟨-, c, cs, heq, hlow, -, hall⟩
    rw [heq] at hmem
    rcases List.mem_cons.mp hmem with rfl | hmem2
    · rw [isNameChar_of_lower hlow] at hbad
      exact absurd hbad (by simp)
    · rw [hall c0 hmem2] at hbad
      exact absurd hbad (by simp)

/-- Store exhibiting the multi-membership resolver defect: identity
`alice` has rows for `s1` (ADMIN, first in the table) and `s2` (MEMBER). -/
def c1Store : Store :=
  { identities := [⟨"alice", true, none⟩]
    memberships := [⟨"alice", "s1", "ADMIN"⟩, ⟨"alice", "s2", "MEMBER"⟩]
    users := [⟨"s1", some "alice"⟩, ⟨"s2", none⟩] }

/-- C1: the resolver does NOT select the joined row whose sender equals the
caller.  `.get()` inspects only the first row of the join, so caller `s2`,
who holds a MEMBER row on `alice`, is answered TAKEN: the code contradicts
the file's own documentation of multi-member identities and the spec's
tie-break requirement. -/
theorem spec2proof_C1_bug :
    (∃ row ∈ joinQuery c1Store (some "alice"), row.sender = "s2") ∧
    2 ≤ (joinQuery c1Store (some "alice")).length ∧
    checkIdentityStatus (some "alice") "s2" c1Store = .taken := by
  decide

/-- Store with an `alice` identity row and no membership rows at all. -/
def c2Store : Store :=
  { identities := [⟨"alice", true, none⟩], memberships := [], users := [] }

/-- C2 counterexample: an Identity row named `alice` exists, yet the
resolver answers AVAILABLE (the claim requires AVAILABLE exactly when no
Identity row exists, and TAKEN for a membershipless identity). -/
theorem spec2proof_C2_cex :
    (∃ i ∈ c2Store.identities, i.name = "alice") ∧
    checkIdentityStatus (some "alice") "s1" c2Store = .available := by
  decide

/-- C2 (amended): the resolver returns AVAILABLE exactly when the
Identity/Membership/User join for the name yields no rows; in particular
an Identity row with no Membership row (or with no joined User row)
resolves to AVAILABLE, not TAKEN. -/
theorem spec2proof_C2 (identityName : Option String) (sender : String) (st : Store) :
    checkIdentityStatus identityName sender st = .available ↔
      joinQuery st identityName = [] := by
  constructor
  · intro h
    by_contra hne
    rcases List.exists_cons_of_ne_nil hne with ⟨r, t, hl⟩
    unfold checkIdentityStatus at h
    rw [hl] at h
    simp only [List.head?_cons] at h
    split at h <;> simp at h
  · intro h
    unfold checkIdentityStatus
    rw [h]
    rfl

/-- C7: when the resolver answers EXISTING, the result's role mirrors the
stored membership type of the joined row it selected: status ADMIN exactly
when the row's `membershipType` is `"ADMIN"`, MEMBER for any other value. -/
theorem spec2proof_C7 (identityName : Option String) (sender : String)
    (st : Store) (e : IExistingIdentityResult)
    (h : checkIdentityStatus identityName sender st = .existing e) :
    ∃ row ∈ joinQuery st identityName,
      row.sender = sender ∧ e.membershipType = row.membershipType ∧
      (e.status = "ADMIN" ↔ row.membershipType = "ADMIN") ∧
      (row.membershipType ≠ "ADMIN" → e.status = "MEMBER") := by
  unfold checkIdentityStatus at h
  cases hl : joinQuery st identityName with
  | nil => rw [hl] at h; simp at h
  | cons r t =>
    rw [hl] at h
    simp only [List.head?_cons] at h
    by_cases hs : (r.sender == sender) = true
    · rw [if_pos hs] at h
      injection h with he
      subst he
      refine ⟨r, List.mem_cons_self r t, beq_iff_eq.mp hs, rfl, ?_, ?_⟩
      · show (if (r.membershipType == "ADMIN") = true then "ADMIN" else "MEMBER") = "ADMIN"
          ↔ r.membershipType = "ADMIN"
        by_cases hA : (r.membershipType == "ADMIN") = true
        · rw [if_pos hA]
          exact iff_of_true rfl (beq_iff_eq.mp hA)
        · rw [if_neg hA]
          exact iff_of_false (by decide) (by simpa using hA)
      · intro hA2
        show (if (r.membershipType == "ADMIN") = true then "ADMIN" else "MEMBER") = "MEMBER"
        rw [if_neg (by simpa using hA2)]
    · rw [if_neg hs] at h
      simp at h

/-- Store for the C7 witness: `alice` with sole ADMIN `s1`. -/
def c7Store : Store :=
  { identities := [⟨"alice", true, none⟩]
    memberships := [⟨"alice", "s1", "ADMIN"⟩]
    users := [⟨"s1", some "alice"⟩] }

/-- The EXISTING result the resolver produces for (`alice`, `s1`). -/
def c7Existing : IExistingIdentityResult :=
  { status := "ADMIN", enabled := true, identityName := "alice"
    membershipType := "ADMIN", primaryIdentityName := some "alice", sender := "s1" }

/-- Witness for C7 at the concrete store `c7Store`. -/
theorem spec2proof_C7_witness :
    ∃ row ∈ joinQuery c7Store (some "alice"),
      row.sender = "s1" ∧ c7Existing.membershipType = row.membershipType ∧
      (c7Existing.status = "ADMIN" ↔ row.membershipType = "ADMIN") ∧
      (row.membershipType ≠ "ADMIN" → c7Existing.status = "MEMBER") :=
  spec2proof_C7 (some "alice") "s1" c7Store c7Existing (by decide)

/-- C8: one resolver call performs exactly one logical read — the single
Identity/Membership/User join for the requested name — and leaves the
store unchanged. -/
theorem spec2proof_C8 (identityName : Option String) (sender : String) (st : Store) :
    (checkIdentityStatusDb identityName sender st).ops = [StoreOp.readJoin identityName] ∧
    (checkIdentityStatusDb identityName sender st).store = st :=
  ⟨rfl, rfl⟩

/-- Concrete sub-handlers used to evaluate `handle` at concrete inputs. -/
def testHandlers : Handlers String :=
  { createIdentity := fun _ _ _ => "created"
    alreadyTaken := fun _ _ _ => "taken"
    modifyIdentity := fun _ _ _ => "modified" }

/-- C5: a command whose lower-cased form does not start with `"id "`, or
whose parsed identity name fails validation, is answered with the
Unhandled result (`undefined`) and causes no store access: no resolver
read and no mutation. -/
theorem spec2proof_C5 {α : Type} (H : Handlers α) (command sender : String)
    (st : Store)
    (h : ¬ jsStartsWith (jsToLower command) "id " = true ∨
      isValidIdentity (argsId (parser command)) = false) :
    handle H command sender st = { response := none, store := st, ops := [] } := by
  unfold handle
  rcases h with h | h
  · rw [if_neg h]
  · by_cases hp : jsStartsWith (jsToLower command) "id " = true
    · rw [if_pos hp, if_neg (by simp [h])]
    · rw [if_neg hp]

/-- Witness for C5 at the concrete command `"hello world"`. -/
theorem spec2proof_C5_witness :
    handle testHandlers "hello world" "s1" emptyStore =
      { response := none, store := emptyStore, ops := [] } :=
  spec2proof_C5 testHandlers "hello world" "s1" emptyStore (Or.inl (by decide))

/-- C6: the command `"Id foo"` lower-cases to an `"id "`-headed command
but defeats the case-sensitive grammar, so no `id` value is captured —
yet `handle` does NOT return the Unhandled result: the undefined name
passes validation (coerced to `"undefined"`) and the command is
dispatched, contradicting the claim that parser failure is treated as
"did not understand". -/
theorem spec2proof_C6_bug :
    jsStartsWith (jsToLower "Id foo") "id " = true ∧
    argsId (parser "Id foo") = none ∧
    (handle testHandlers "Id foo" "s1" emptyStore).response ≠ none := by
  decide

/-- C9: a command that passes the head check and name validation is
dispatched on the resolved status — AVAILABLE to the create-identity
handler, TAKEN to the already-taken handler, and each EXISTING result to
the modify-identity handler — and `handle` returns that handler's result
unchanged (the store is left as the resolver's single read left it). -/
theorem spec2proof_C9 {α : Type} (H : Handlers α) (command sender : String)
    (st : Store)
    (hpre : jsStartsWith (jsToLower command) "id " = true)
    (hval : isValidIdentity (argsId (parser command)) = true) :
    (checkIdentityStatus (argsId (parser command)) sender st = .available →
      handle H command sender st =
        { response := some (H.createIdentity (argsId (parser command)) sender command)
          store := st, ops := [.readJoin (argsId (parser command))] }) ∧
    (checkIdentityStatus (argsId (parser command)) sender st = .taken →
      handle H command sender st =
        { response := some (H.alreadyTaken (argsId (parser command)) sender command)
          store := st, ops := [.readJoin (argsId (parser command))] }) ∧
    (∀ e, checkIdentityStatus (argsId (parser command)) sender st = .existing e →
      handle H command sender st =
        { response := some (H.modifyIdentity e (parser command) command)
          store := st, ops := [.readJoin (argsId (parser command))] }) := by
  unfold handle
  rw [if_pos hpre, if_pos hval]
  refine ⟨?_, ?_, ?_⟩
  · intro h
    simp only [checkIdentityStatusDb]
    rw [h]
  · intro h
    simp only [checkIdentityStatusDb]
    rw [h]
  · intro e h
    simp only [checkIdentityStatusDb]
    rw [h]

/-- Witness for C9 at the concrete command `"id alice"` on the empty
store (the AVAILABLE case). -/
theorem spec2proof_C9_witness :
    handle testHandlers "id alice" "s1" emptyStore =
      { response := some (testHandlers.createIdentity (some "alice") "s1" "id alice")
        store := emptyStore, ops := [.readJoin (some "alice")] } :=
  (spec2proof_C9 testHandlers "id alice" "s1" emptyStore (by decide) (by decide)).1
    (by decide)

/-- C10: for the command `"Id foo"` the grammar captures no `id` value
(`args.id` is undefined), yet `isValidIdentity` accepts it —
`regex.test` coerces undefined to the string `"undefined"`, which matches
the name pattern — so `handle` proceeds to resolve and dispatch (here, on
the empty store, to the create-identity handler with the undefined name)
instead of returning the Unhandled result. -/
theorem spec2proof_C10 {α : Type} (H : Handlers α) (sender : String) :
    argsId (parser "Id foo") = none ∧
    jsToString none = "undefined" ∧
    isValidIdentity none = true ∧
    (handle H "Id foo" sender emptyStore).response =
      some (H.createIdentity none sender "Id foo") := by
  refine ⟨by decide, rfl, by decide, ?_⟩
  unfold handle
  rw [if_pos (by decide : jsStartsWith (jsToLower "Id foo") "id " = true),
    if_pos (by decide : isValidIdentity (argsId (parser "Id foo")) = true)]
  rw [show argsId (parser "Id foo") = none by decide]
  simp only [checkIdentityStatusDb]
  rw [show checkIdentityStatus none sender emptyStore = .available from rfl]

/-- C3: in every registry state reachable through the engine, an identity
with at least one membership row has at least one ADMIN membership row;
and a removal that would leave an identity with remaining memberships but
zero ADMIN rows (the target holds an ADMIN row and no other ADMIN row on
the identity exists) is rejected with the state unchanged, whoever the
caller is. -/
theorem spec2proof_C3 (st : Store) (h : Reachable st) :
    adminInvariant st ∧
    ∀ name sender x,
      membershipOf st name x = some "ADMIN" →
      otherAdminExists st name x = false →
      (∃ m ∈ st.memberships, m.identityName = name ∧ m.userSender ≠ x) →
      (applyIntent st name sender (.removeUser x)).1.isRejected = true ∧
      (applyIntent st name sender (.removeUser x)).2 = st := by
  rcases reachable_inv h with ⟨hA, hW⟩
  refine ⟨hA, ?_⟩
  intro name sender x hmx hoa _hrem
  have hex : identityExists st name = true := by
    rcases membershipOf_eq_some hmx with ⟨m, hmem, hid, -, -⟩
    rcases hW m hmem with ⟨i, hi, hni⟩
    exact identityExists_iff.mpr ⟨i, hi, by rw [hni, hid]⟩
  unfold applyIntent
  rw [if_pos hex]
  cases hmo : membershipOf st name sender with
  | none => exact ⟨rfl, rfl⟩
  | some mt =>
    by_cases hmt : (mt == "ADMIN") = true
    · simp [hmt, hmx, hoa, MutationResult.isRejected]
    · have hmtf : (mt == "ADMIN") = false := by
        revert hmt; cases mt == "ADMIN" <;> simp
      simp [hmtf, MutationResult.isRejected]

/-- State after `s1` claims `alice`. -/
def c3Store0 : Store := (applyIntent emptyStore "alice" "s1" .create).2

/-- State after `s1` additionally grants `s2` plain membership: `alice`
has two membership rows and exactly one ADMIN (`s1`). -/
def c3Store : Store := (applyIntent c3Store0 "alice" "s1" (.grantMember "s2")).2

/-- Witness for C3: in the concrete reachable state `c3Store`, removing
the sole ADMIN `s1` is rejected and changes nothing. -/
theorem spec2proof_C3_witness :
    adminInvariant c3Store ∧
    (applyIntent c3Store "alice" "s1" (Intent.removeUser "s1")).1.isRejected = true ∧
    (applyIntent c3Store "alice" "s1" (Intent.removeUser "s1")).2 = c3Store := by
  have hr : Reachable c3Store :=
    Reachable.step c3Store0 "alice" "s1" (Intent.grantMember "s2")
      (Reachable.step emptyStore "alice" "s1" Intent.create Reachable.init)
  have h := spec2proof_C3 c3Store hr
  exact ⟨h.1, h.2 "alice" "s1" "s1" (by decide) (by decide) (by decide)⟩
